import Mathlib

/-!
Verification of `prepareVerification.py`, a raw, offset-based MIME
`multipart/signed` splitter.  Bytes are modelled as `List Nat` (each element a
byte value); Python `bytes` slices become `List.take` / `List.drop`; fallible
functions (those calling `die`) return `Option`.
-/

/-- Byte values of an ASCII string literal (all source literals are ASCII). -/
def sB (s : String) : List Nat := s.toList.map Char.toNat

/-- Python `bytes.find`: index of the first occurrence of `pat` in the list,
`none` when absent (Python returns `-1`). -/
def bytesFind (pat : List Nat) : List Nat → Option Nat
  | [] => if pat.isPrefixOf ([] : List Nat) then some 0 else none
  | b :: rest =>
    if pat.isPrefixOf (b :: rest) then some 0
    else (bytesFind pat rest).map (· + 1)

/-- Python slice `l[a:b]` (for `a ≤ b`; yields `[]` when `a ≥ b`). -/
def pySlice (l : List Nat) (a b : Nat) : List Nat := (l.drop a).take (b - a)

/-- `find_header_block`: split the raw message at the first blank line,
trying `\r\n\r\n` first and falling back to `\n\n`; `none` models `die`.
Returns (headers, rest, eol-style). -/
def find_header_block (raw : List Nat) : Option (List Nat × List Nat × List Nat) :=
  match bytesFind [13, 10, 13, 10] raw with
  | some idx => some (raw.take idx, raw.drop (idx + 4), [13, 10])
  | none =>
    match bytesFind [10, 10] raw with
    | some idx => some (raw.take idx, raw.drop (idx + 2), [10])
    | none => none

/-- ASCII lowercasing of one byte, as Python `bytes.lower` does per byte. -/
def lowerByte (b : Nat) : Nat := if 65 ≤ b ∧ b ≤ 90 then b + 32 else b

/-- Python `bytes.lower`. -/
def lowerBytes (l : List Nat) : List Nat := l.map lowerByte

/-- Python `bytes` whitespace (stripped by `bytes.strip`, matched by `\s`):
space, tab, LF, CR, vertical tab, form feed. -/
def isPyWs (b : Nat) : Bool := b == 32 || b == 9 || b == 10 || b == 13 || b == 11 || b == 12

/-- Python `bytes.strip()`. -/
def stripB (l : List Nat) : List Nat :=
  ((l.dropWhile isPyWs).reverse.dropWhile isPyWs).reverse

/-- Worker for `splitlinesB`: accumulates the current line (reversed). -/
def slGo : List Nat → List Nat → List (List Nat)
  | [], acc => [acc.reverse]
  | 13 :: 10 :: rest, acc => acc.reverse :: (if rest.isEmpty then [] else slGo rest [])
  | 13 :: rest, acc => acc.reverse :: (if rest.isEmpty then [] else slGo rest [])
  | 10 :: rest, acc => acc.reverse :: (if rest.isEmpty then [] else slGo rest [])
  | b :: rest, acc => slGo rest (b :: acc)

/-- Python `bytes.splitlines()`: split on `\r\n`, `\r` or `\n`, terminators
dropped, no trailing empty line for a trailing terminator. -/
def splitlinesB (l : List Nat) : List (List Nat) :=
  if l.isEmpty then [] else slGo l []

/-- One step of RFC header unfolding (the accumulator is kept reversed):
a line starting with space or tab is appended onto the previous line. -/
def unfoldStep (racc : List (List Nat)) (line : List Nat) : List (List Nat) :=
  match racc, line with
  | prev :: rest, b :: _ =>
    if b == 32 || b == 9 then (prev ++ line) :: rest else line :: prev :: rest
  | _, _ => line :: racc

/-- Header-line unfolding loop of `get_top_level_boundary`. -/
def unfoldLines (lines : List (List Nat)) : List (List Nat) :=
  (lines.foldl unfoldStep []).reverse

/-- Bytes excluded from a boundary-token value by the regex class `[^";\s]`. -/
def isBadTokByte (b : Nat) : Bool := b == 34 || b == 59 || isPyWs b

/-- One anchored attempt of the regex
`boundary=(?P<q>")?(?P<val>[^";\s]+)(?P=q)?` (case-insensitive) at offset `i`
of `ct`.  After the literal `boundary=`, an optional opening double quote is
consumed; the value is the maximal nonempty run of bytes outside `[^";\s]`;
the optional closing quote never changes the captured value.  When the run is
empty the attempt fails (with an opening quote, backtracking to the unquoted
branch also fails, since the quote byte itself is excluded from the class). -/
def matchBoundaryAt (ct : List Nat) (i : Nat) : Option (List Nat) :=
  let r := ct.drop i
  if lowerBytes (r.take 9) = sB "boundary=" then
    let r2 := r.drop 9
    let r3 := if r2.head? = some 34 then r2.drop 1 else r2
    let v := r3.takeWhile (fun b => !isBadTokByte b)
    if v.isEmpty then none else some v
  else none

/-- `re.search` of the boundary regex over `ct`: first offset whose anchored
attempt succeeds. -/
def get_boundary_token (ct : List Nat) : Option (List Nat) :=
  (List.range (ct.length + 1)).findSome? (matchBoundaryAt ct)

/-- `get_top_level_boundary`: unfold the header lines, find the
`Content-Type` header (case-insensitively), require `multipart/signed`
(case-insensitive substring) and extract the boundary parameter.
`none` models each `die`, including the empty-value case (`if not ct`). -/
def get_top_level_boundary (top_headers : List Nat) : Option (List Nat) :=
  let unfolded := unfoldLines (splitlinesB top_headers)
  match unfolded.find? (fun l => (sB "content-type:").isPrefixOf (lowerBytes l)) with
  | none => none
  | some l =>
    let ct := stripB (l.drop 13)
    if ct.isEmpty then none
    else if (bytesFind (sB "multipart/signed") (lowerBytes ct)).isSome then
      get_boundary_token ct
    else none

/-- Does offset `i` of `body` start a line (offset 0, or right after `\n`)?
This is where the multiline regex anchor `^` matches. -/
def isLineStart (body : List Nat) (i : Nat) : Bool :=
  i == 0 || body[i - 1]? == some 10

/-- Consume `[ \t]*\r?\n` at the front of `l`; returns the number of bytes
consumed.  The character class is greedy, and `\r?` only succeeds when a `\n`
follows (otherwise the engine backtracks to the bare-`\n` branch, which then
fails on the `\r`). -/
def wsEol (l : List Nat) : Option Nat :=
  let ws := l.takeWhile (fun b => b == 32 || b == 9)
  match l.dropWhile (fun b => b == 32 || b == 9) with
  | 13 :: 10 :: _ => some (ws.length + 2)
  | 10 :: _ => some (ws.length + 1)
  | _ => none

/-- One anchored attempt of the delimiter regex
`^(--boundary(?P<closing>--)?)[ \t]*\r?\n` at offset `i` of `body`; returns
(number of bytes matched, is-closing).  The greedy optional `(--)?` is taken
when `--` follows the token; if the rest of the line then fails, the
backtracked unquoted branch starts at a `-` byte and fails as well, so no
fallback case is needed. -/
def delimMatchAt (body tok : List Nat) (i : Nat) : Option (Nat × Bool) :=
  let rest := body.drop i
  if ([45, 45] ++ tok).isPrefixOf rest then
    let r2 := rest.drop (2 + tok.length)
    if [45, 45].isPrefixOf r2 then
      match wsEol (r2.drop 2) with
      | some k => some (2 + tok.length + 2 + k, true)
      | none => none
    else
      match wsEol r2 with
      | some k => some (2 + tok.length + k, false)
      | none => none
  else none

/-- Worker for `iter_signed_boundaries`: scan offsets left to right; at each
line start try the delimiter pattern; on a match, emit
(start, end, is-closing) and resume at the match end (`finditer` yields
non-overlapping matches). `fuel` bounds the remaining offsets. -/
def scanAux (body tok : List Nat) : Nat → Nat → List (Nat × Nat × Bool)
  | 0, _ => []
  | fuel + 1, i =>
    if i > body.length then []
    else if isLineStart body i then
      match delimMatchAt body tok i with
      | some (len, c) => (i, i + len, c) :: scanAux body tok fuel (i + len)
      | none => scanAux body tok fuel (i + 1)
    else scanAux body tok fuel (i + 1)

/-- `iter_signed_boundaries`: every (start, end, is-closing) delimiter mark of
`body`, in document order. -/
def iter_signed_boundaries (body tok : List Nat) : List (Nat × Nat × Bool) :=
  scanAux body tok (body.length + 1) 0

/-- The leading-blank-line tolerance of `split_multipart_signed_parts`:
drop one leading `\r\n`, else one leading `\n`, else nothing. -/
def trimLeadingEmptyLine (p : List Nat) : List Nat :=
  if [13, 10].isPrefixOf p then p.drop 2
  else if [10].isPrefixOf p then p.drop 1
  else p

/-- `split_multipart_signed_parts`: find all marks; fail (`none`) when fewer
than two, when no mark is closing, or when the first closing mark's index is
below 2; otherwise slice part 1 between marks #0 and #1 and part 2 between
mark #1 and the first closing mark, each with the single-leading-terminator
trim. -/
def split_multipart_signed_parts (body tok : List Nat) : Option (List Nat × List Nat) :=
  let bmarks := iter_signed_boundaries body tok
  if bmarks.length < 2 then none
  else
    match bmarks.findIdx? (fun m => m.2.2) with
    | none => none
    | some ci =>
      if ci < 2 then none
      else
        match bmarks[0]?, bmarks[1]?, bmarks[ci]? with
        | some (_, e0, _), some (s1, e1, _), some (sc, _, _) =>
          some (trimLeadingEmptyLine (pySlice body e0 s1),
                trimLeadingEmptyLine (pySlice body e1 sc))
        | _, _, _ => none

/-- `strip_headers`: split a part at its first blank line (`\r\n\r\n`
preferred, then `\n\n`); when neither occurs, empty headers and the whole
part as body.  Total: never fails. -/
def strip_headers (part : List Nat) : List Nat × List Nat :=
  match bytesFind [13, 10, 13, 10] part with
  | some idx => (part.take idx, part.drop (idx + 4))
  | none =>
    match bytesFind [10, 10] part with
    | some idx => (part.take idx, part.drop (idx + 2))
    | none => ([], part)

/-- `trim_trailing_newline`: drop one trailing `\r\n`, else one trailing
`\n`, else nothing. -/
def trim_trailing_newline (b : List Nat) : List Nat :=
  if [13, 10].isSuffixOf b then b.take (b.length - 2)
  else if [10].isSuffixOf b then b.take (b.length - 1)
  else b

/-- The pure pipeline of `main`: header/body split, boundary extraction, part
splitting, signature-header stripping, trailing trims.  `some (m, s)` holds
the bytes written to `message.txt` and `signature.asc`; `none` means the run
died before writing any output. -/
def main_outputs (raw : List Nat) : Option (List Nat × List Nat) := do
  let (top_headers, top_body, _eol) ← find_header_block raw
  let boundary ← get_top_level_boundary top_headers
  let (part1, part2) ← split_multipart_signed_parts top_body boundary
  let sig_body := (strip_headers part2).2
  pure (trim_trailing_newline part1, trim_trailing_newline sig_body)

/-- Declarative form of one whitespace-then-end-of-line run `[ \t]*\r?\n`:
`k` bytes at the front of `l` are zero or more spaces/tabs followed by
`\r\n` or bare `\n`. -/
def IsWsEolRun (l : List Nat) (k : Nat) : Prop :=
  ∃ ws eol, (∀ b ∈ ws, b = 32 ∨ b = 9) ∧ (eol = [13, 10] ∨ eol = [10]) ∧
    (ws ++ eol) <+: l ∧ k = ws.length + eol.length

/-- Declarative form of a delimiter line as the spec words it: at offset `p`
of `body` stand the literal `--`, the boundary token, a second literal `--`
exactly when the mark is closing, zero or more spaces/tabs, and `\r\n` or
bare `\n`; `len` is the byte length of all of that. -/
def SpecDelimLine (body tok : List Nat) (p len : Nat) (c : Bool) : Prop :=
  ∃ ws eol, (∀ b ∈ ws, b = 32 ∨ b = 9) ∧ (eol = [13, 10] ∨ eol = [10]) ∧
    (([45, 45] ++ tok ++ (if c then [45, 45] else []) ++ ws ++ eol) <+: body.drop p) ∧
    len = 2 + tok.length + (if c then 2 else 0) + ws.length + eol.length

/-- The constructed round-trip body `--T\r\n<P1>--T\r\n<P2>--T--\r\n` of the
spec's round-trip delimiter-detection property. -/
def msBody (T P1 P2 : List Nat) : List Nat :=
  ([45, 45] ++ T ++ [13, 10]) ++ P1 ++ ([45, 45] ++ T ++ [13, 10]) ++ P2 ++
    ([45, 45] ++ T ++ [45, 45, 13, 10])

/-! ## Lemmas about `bytesFind` -/

lemma bytesFind_some_spec (pat : List Nat) :
    ∀ (l : List Nat) (i : Nat), bytesFind pat l = some i →
      pat <+: l.drop i ∧ ∀ j, j < i → ¬ pat <+: l.drop j := by
  intro l
  induction l with
  | nil =>
    intro i h
    simp only [bytesFind] at h
    split at h
    · rename_i hp
      injection h with h0
      subst h0
      exact ⟨by simpa [List.isPrefixOf_iff_prefix] using hp, by intro j hj; omega⟩
    · exact absurd h (by simp)
  | cons b rest ih =>
    intro i h
    simp only [bytesFind] at h
    split at h
    · rename_i hp
      injection h with h0
      subst h0
      exact ⟨by simpa [List.isPrefixOf_iff_prefix] using hp, by intro j hj; omega⟩
    · rename_i hp
      rw [Option.map_eq_some'] at h
      obtain ⟨i', hi', hii⟩ := h
      subst hii
      obtain ⟨h1, h2⟩ := ih i' hi'
      refine ⟨by simpa using h1, ?_⟩
      intro j hj
      match j with
      | 0 =>
        simp only [List.drop_zero]
        intro hc
        exact hp (by simpa [List.isPrefixOf_iff_prefix] using hc)
      | j' + 1 =>
        simpa using h2 j' (by omega)

lemma bytesFind_none_spec (pat : List Nat) :
    ∀ (l : List Nat), bytesFind pat l = none → ∀ i, ¬ pat <+: l.drop i := by
  intro l
  induction l with
  | nil =>
    intro h i
    simp only [bytesFind] at h
    split at h
    · cases h
    · rename_i hp
      simp only [List.drop_nil]
      intro hc
      exact hp (by simpa [List.isPrefixOf_iff_prefix] using hc)
  | cons b rest ih =>
    intro h i
    simp only [bytesFind] at h
    split at h
    · cases h
    · rename_i hp
      rw [Option.map_eq_none'] at h
      match i with
      | 0 =>
        simp only [List.drop_zero]
        intro hc
        exact hp (by simpa [List.isPrefixOf_iff_prefix] using hc)
      | j + 1 =>
        simpa using ih h j

/-! ## Claim theorems (part 1: header/body splitting, trimming, extraction) -/

/-- C1: end-to-end scenario.  For the message whose top-level headers are
`Content-Type: multipart/signed; boundary=XYZ` followed by a CRLF blank line
and whose body is
`--XYZ\r\nheaders1\r\n\r\nbody1\r\n--XYZ\r\nheaders2\r\n\r\narmor-data\r\n--XYZ--\r\n`,
the pipeline produces signed-entity bytes `headers1\r\n\r\nbody1` and
signature bytes `armor-data`. -/
theorem claim_C1_scenario :
    main_outputs (sB "Content-Type: multipart/signed; boundary=XYZ\r\n\r\n--XYZ\r\nheaders1\r\n\r\nbody1\r\n--XYZ\r\nheaders2\r\n\r\narmor-data\r\n--XYZ--\r\n") =
      some (sB "headers1\r\n\r\nbody1", sB "armor-data") := by decide

/-- C5 counterexample: in `a\n\nb\r\n\r\nc` the separator `\n\n` occurs at
offset 1, strictly before every occurrence of `\r\n\r\n` (the first is at
offset 4), yet `find_header_block` splits at the `\r\n\r\n`, returning body
`c` instead of everything after the byte-stream-first separator (`b\r\n\r\nc`).
So the code does not split at whichever separator comes first in the byte
stream. -/
theorem claim_C5_counterexample :
    ([10, 10] <+: ([97, 10, 10, 98, 13, 10, 13, 10, 99] : List Nat).drop 1) ∧
    (∀ j, j < 4 → ¬ ([13, 10, 13, 10] <+: ([97, 10, 10, 98, 13, 10, 13, 10, 99] : List Nat).drop j)) ∧
    find_header_block [97, 10, 10, 98, 13, 10, 13, 10, 99] =
      some ([97, 10, 10, 98], [99], [13, 10]) ∧
    ([99] : List Nat) ≠ ([97, 10, 10, 98, 13, 10, 13, 10, 99] : List Nat).drop 3 := by
  refine ⟨by decide, ?_, by decide, by decide⟩
  intro j hj
  interval_cases j <;> decide

/-- C5 (amended): `find_header_block` splits at the earliest occurrence of
`\r\n\r\n` whenever that separator occurs anywhere; only when it is absent
does it split at the earliest occurrence of `\n\n`; everything after the
separator is the body; and it fails exactly when neither separator occurs
anywhere in the input. -/
theorem claim_C5_header_split (raw : List Nat) :
    (∀ i, bytesFind [13, 10, 13, 10] raw = some i →
      (([13, 10, 13, 10] <+: raw.drop i) ∧ ∀ j, j < i → ¬ ([13, 10, 13, 10] <+: raw.drop j)) ∧
      find_header_block raw = some (raw.take i, raw.drop (i + 4), [13, 10])) ∧
    (bytesFind [13, 10, 13, 10] raw = none →
      (∀ i, ¬ ([13, 10, 13, 10] <+: raw.drop i)) ∧
      ∀ i, bytesFind [10, 10] raw = some i →
        (([10, 10] <+: raw.drop i) ∧ ∀ j, j < i → ¬ ([10, 10] <+: raw.drop j)) ∧
        find_header_block raw = some (raw.take i, raw.drop (i + 2), [10])) ∧
    (find_header_block raw = none ↔
      (∀ i, ¬ ([13, 10, 13, 10] <+: raw.drop i)) ∧ (∀ i, ¬ ([10, 10] <+: raw.drop i))) := by
  refine ⟨?_, ?_, ?_⟩
  · intro i hi
    exact ⟨bytesFind_some_spec _ raw i hi, by simp [find_header_block, hi]⟩
  · intro hn
    refine ⟨bytesFind_none_spec _ raw hn, ?_⟩
    intro i hi
    exact ⟨bytesFind_some_spec _ raw i hi, by simp [find_header_block, hn, hi]⟩
  · constructor
    · intro h
      cases hc : bytesFind [13, 10, 13, 10] raw with
      | some v => simp [find_header_block, hc] at h
      | none =>
        cases hl : bytesFind [10, 10] raw with
        | some v => simp [find_header_block, hc, hl] at h
        | none => exact ⟨bytesFind_none_spec _ raw hc, bytesFind_none_spec _ raw hl⟩
    · rintro ⟨h1, h2⟩
      cases hc : bytesFind [13, 10, 13, 10] raw with
      | some v => exact absurd (bytesFind_some_spec _ raw v hc).1 (h1 v)
      | none =>
        cases hl : bytesFind [10, 10] raw with
        | some v => exact absurd (bytesFind_some_spec _ raw v hl).1 (h2 v)
        | none => simp [find_header_block, hc, hl]

/-- C5 witness: the amended theorem applied to the concrete message
`\r\n\r\n` followed by `a`. -/
theorem claim_C5_witness :
    (([13, 10, 13, 10] <+: ([13, 10, 13, 10, 97] : List Nat).drop 0) ∧
      ∀ j, j < 0 → ¬ ([13, 10, 13, 10] <+: ([13, 10, 13, 10, 97] : List Nat).drop j)) ∧
    find_header_block [13, 10, 13, 10, 97] = some ([], [97], [13, 10]) := by
  have h := (claim_C5_header_split [13, 10, 13, 10, 97]).1 0 (by decide)
  exact h

/-- C6: quoted and unquoted boundary parameters yield the identical token
`abc123`, quotes excluded and all other bytes preserved. -/
theorem claim_C6_quote_equivalence :
    get_top_level_boundary (sB "Content-Type: multipart/signed; boundary=\"abc123\"") = some (sB "abc123") ∧
    get_top_level_boundary (sB "Content-Type: multipart/signed; boundary=abc123") = some (sB "abc123") ∧
    sB "abc123" = [97, 98, 99, 49, 50, 51] := by decide

/-- C7 counterexample: trimming is not idempotent.  For the two-byte input
`\n\n` one application trims to `\n`, and a second application trims again to
the empty sequence, so applying the trim twice differs from applying it
once. -/
theorem claim_C7_counterexample :
    trim_trailing_newline (trim_trailing_newline [10, 10]) ≠ trim_trailing_newline [10, 10] := by decide

/-- C7 (amended): for every byte sequence whose once-trimmed value does not
itself still end in a line terminator (equivalently, the input does not end
in two consecutive terminators), the second application of
`trim_trailing_newline` is a no-op. -/
theorem claim_C7_trim_idempotent (b : List Nat)
    (h : ¬ ([10] <:+ trim_trailing_newline b)) :
    trim_trailing_newline (trim_trailing_newline b) = trim_trailing_newline b := by
  generalize hgen : trim_trailing_newline b = t at h
  unfold trim_trailing_newline
  split
  · rename_i hs
    rw [List.isSuffixOf_iff_suffix] at hs
    exact absurd (List.IsSuffix.trans (by decide) hs) h
  · split
    · rename_i hs
      rw [List.isSuffixOf_iff_suffix] at hs
      exact absurd hs h
    · rfl

/-- C7 witness: the amended idempotence applied to `a\n`. -/
theorem claim_C7_witness :
    ¬ ([10] <:+ trim_trailing_newline [97, 10]) ∧
    trim_trailing_newline (trim_trailing_newline [97, 10]) = trim_trailing_newline [97, 10] :=
  ⟨by decide, claim_C7_trim_idempotent [97, 10] (by decide)⟩

/-- C9: `strip_headers` splits a part at the earliest `\r\n\r\n` when one
occurs, else at the earliest `\n\n`, returning (headers, rest); when neither
separator occurs it returns empty headers and the whole part unchanged —
it never fails. -/
theorem claim_C9_strip_headers (part : List Nat) :
    (∀ i, bytesFind [13, 10, 13, 10] part = some i →
      (([13, 10, 13, 10] <+: part.drop i) ∧ ∀ j, j < i → ¬ ([13, 10, 13, 10] <+: part.drop j)) ∧
      strip_headers part = (part.take i, part.drop (i + 4))) ∧
    (bytesFind [13, 10, 13, 10] part = none →
      (∀ i, ¬ ([13, 10, 13, 10] <+: part.drop i)) ∧
      ∀ i, bytesFind [10, 10] part = some i →
        (([10, 10] <+: part.drop i) ∧ ∀ j, j < i → ¬ ([10, 10] <+: part.drop j)) ∧
        strip_headers part = (part.take i, part.drop (i + 2))) ∧
    (bytesFind [13, 10, 13, 10] part = none → bytesFind [10, 10] part = none →
      ((∀ i, ¬ ([13, 10, 13, 10] <+: part.drop i)) ∧ (∀ i, ¬ ([10, 10] <+: part.drop i))) ∧
      strip_headers part = ([], part)) := by
  refine ⟨?_, ?_, ?_⟩
  · intro i hi
    exact ⟨bytesFind_some_spec _ part i hi, by simp [strip_headers, hi]⟩
  · intro hn
    refine ⟨bytesFind_none_spec _ part hn, ?_⟩
    intro i hi
    exact ⟨bytesFind_some_spec _ part i hi, by simp [strip_headers, hn, hi]⟩
  · intro hn hl
    exact ⟨⟨bytesFind_none_spec _ part hn, bytesFind_none_spec _ part hl⟩,
      by simp [strip_headers, hn, hl]⟩

/-! ## Lemmas for the boundary-parameter regex -/

lemma dropWhile_head_false {p : Nat → Bool} :
    ∀ (l : List Nat) (b : Nat) (t : List Nat), l.dropWhile p = b :: t → p b = false := by
  intro l
  induction l with
  | nil => intro b t h; cases h
  | cons a l ih =>
    intro b t h
    rw [List.dropWhile_cons] at h
    split at h
    · exact ih b t h
    · rename_i hp
      injection h with h1 h2
      subst h1
      simpa using hp

/-- C10: with an opening double quote but no closing quote, the value
`boundary="abc` still yields the token `abc`; and in general any token the
extractor returns is a nonempty run of bytes outside `"`, `;`, whitespace,
taken right after `boundary=` (with one optional opening quote) and ending
exactly where the first such excluded byte (or the end of the value)
follows. -/
theorem claim_C10_boundary_token_edges :
    get_top_level_boundary (sB "Content-Type: multipart/signed; boundary=\"abc") = some (sB "abc") ∧
    ∀ ct tok, get_boundary_token ct = some tok →
      tok ≠ [] ∧ (∀ b ∈ tok, isBadTokByte b = false) ∧
      ∃ i rest, lowerBytes ((ct.drop i).take 9) = sB "boundary=" ∧
        (ct.drop (i + 9) = tok ++ rest ∨ ct.drop (i + 9) = 34 :: (tok ++ rest)) ∧
        (rest = [] ∨ ∃ b rest2, rest = b :: rest2 ∧ isBadTokByte b = true) := by
  constructor
  · decide
  · intro ct tok h
    rw [get_boundary_token] at h
    obtain ⟨i, _hmem, hi⟩ := List.exists_of_findSome?_eq_some h
    simp only [matchBoundaryAt] at hi
    split at hi
    · rename_i hcond
      have hdd : ((ct.drop i).drop 9) = ct.drop (i + 9) := List.drop_drop 9 i ct
      split at hi
      · rename_i hq
        obtain ⟨t, ht⟩ : ∃ t, (ct.drop i).drop 9 = 34 :: t := by
          cases hcase : ((ct.drop i).drop 9) with
          | nil => rw [hcase] at hq; cases hq
          | cons x t =>
            rw [hcase] at hq
            injection hq with hx
            exact ⟨t, by rw [hx]⟩
        split at hi
        · cases hi
        · rename_i hne
          injection hi with hv
          have hv' : t.takeWhile (fun b => !isBadTokByte b) = tok := by
            rw [ht] at hv
            simpa using hv
          refine ⟨?_, ?_, i, t.dropWhile (fun b => !isBadTokByte b), hcond, Or.inr ?_, ?_⟩
          · intro hnil
            exact hne (by rw [List.isEmpty_iff]; exact hv.trans hnil)
          · intro b hb
            have hb' : b ∈ t.takeWhile (fun b => !isBadTokByte b) := by rw [hv']; exact hb
            simpa using List.mem_takeWhile_imp hb'
          · rw [← hdd, ht, ← hv', List.takeWhile_append_dropWhile]
          · cases hrest : t.dropWhile (fun b => !isBadTokByte b) with
            | nil => exact Or.inl rfl
            | cons b t2 =>
              refine Or.inr ⟨b, t2, rfl, ?_⟩
              have := dropWhile_head_false t b t2 hrest
              simpa using this
      · rename_i hq
        split at hi
        · cases hi
        · rename_i hne
          injection hi with hv
          refine ⟨?_, ?_, i, ((ct.drop i).drop 9).dropWhile (fun b => !isBadTokByte b),
            hcond, Or.inl ?_, ?_⟩
          · intro hnil
            exact hne (by rw [List.isEmpty_iff]; exact hv.trans hnil)
          · intro b hb
            have hb' : b ∈ ((ct.drop i).drop 9).takeWhile (fun b => !isBadTokByte b) := by
              rw [hv]; exact hb
            simpa using List.mem_takeWhile_imp hb'
          · rw [← hdd, ← hv, List.takeWhile_append_dropWhile]
          · cases hrest : ((ct.drop i).drop 9).dropWhile (fun b => !isBadTokByte b) with
            | nil => exact Or.inl rfl
            | cons b t2 =>
              refine Or.inr ⟨b, t2, rfl, ?_⟩
              have := dropWhile_head_false _ b t2 hrest
              simpa using this
    · cases hi

/-- C10 witness: the general token-shape property applied to the value
`boundary=q`. -/
theorem claim_C10_witness :
    ([113] : List Nat) ≠ [] ∧ (∀ b ∈ ([113] : List Nat), isBadTokByte b = false) ∧
    ∃ i rest, lowerBytes (((sB "boundary=q").drop i).take 9) = sB "boundary=" ∧
      ((sB "boundary=q").drop (i + 9) = [113] ++ rest ∨
        (sB "boundary=q").drop (i + 9) = 34 :: ([113] ++ rest)) ∧
      (rest = [] ∨ ∃ b rest2, rest = b :: rest2 ∧ isBadTokByte b = true) :=
  (claim_C10_boundary_token_edges).2 (sB "boundary=q") [113] (by decide)

/-! ## Lemmas about the delimiter-line matcher -/

lemma takeWhile_append_all {p : Nat → Bool} :
    ∀ (l₁ l₂ : List Nat), (∀ b ∈ l₁, p b = true) →
      (l₁ ++ l₂).takeWhile p = l₁ ++ l₂.takeWhile p := by
  intro l₁
  induction l₁ with
  | nil => intro l₂ _; simp
  | cons a l ih =>
    intro l₂ h
    rw [List.cons_append, List.takeWhile_cons, if_pos (h a (List.mem_cons_self a l)),
      ih l₂ (fun b hb => h b (List.mem_cons_of_mem a hb))]
    rfl

lemma dropWhile_append_all {p : Nat → Bool} :
    ∀ (l₁ l₂ : List Nat), (∀ b ∈ l₁, p b = true) →
      (l₁ ++ l₂).dropWhile p = l₂.dropWhile p := by
  intro l₁
  induction l₁ with
  | nil => intro l₂ _; simp
  | cons a l ih =>
    intro l₂ h
    rw [List.cons_append, List.dropWhile_cons, if_pos (h a (List.mem_cons_self a l))]
    exact ih l₂ (fun b hb => h b (List.mem_cons_of_mem a hb))

lemma wsEol_eq_some_iff (l : List Nat) (k : Nat) :
    wsEol l = some k ↔ IsWsEolRun l k := by
  constructor
  · intro h
    simp only [wsEol] at h
    split at h
    · rename_i t heq
      injection h with hk
      refine ⟨l.takeWhile (fun b => b == 32 || b == 9), [13, 10], ?_, Or.inl rfl, ⟨t, ?_⟩, ?_⟩
      · intro b hb
        have := List.mem_takeWhile_imp hb
        rcases Bool.or_eq_true_iff.mp this with h' | h' <;> [left; right] <;> simpa using h'
      · rw [List.append_assoc]
        show l.takeWhile (fun b => b == 32 || b == 9) ++ (13 :: 10 :: t) = l
        rw [← heq, List.takeWhile_append_dropWhile]
      · simp only [List.length_cons, List.length_nil]
        omega
    · rename_i t heq
      injection h with hk
      refine ⟨l.takeWhile (fun b => b == 32 || b == 9), [10], ?_, Or.inr rfl, ⟨t, ?_⟩, ?_⟩
      · intro b hb
        have := List.mem_takeWhile_imp hb
        rcases Bool.or_eq_true_iff.mp this with h' | h' <;> [left; right] <;> simpa using h'
      · rw [List.append_assoc]
        show l.takeWhile (fun b => b == 32 || b == 9) ++ (10 :: t) = l
        rw [← heq, List.takeWhile_append_dropWhile]
      · simp only [List.length_cons, List.length_nil]
        omega
    · exact absurd h (by simp)
  · rintro ⟨ws, eol, hws, heol, ⟨t, ht⟩, hk⟩
    have hwsp : ∀ b ∈ ws, (fun b => b == 32 || b == 9) b = true := by
      intro b hb
      rcases hws b hb with h' | h' <;> simp [h']
    have hassoc : l = ws ++ (eol ++ t) := by
      rw [← ht, List.append_assoc]
    rcases heol with he | he <;> subst he
    · have h1 : l.takeWhile (fun b => b == 32 || b == 9) = ws := by
        rw [hassoc, takeWhile_append_all ws _ hwsp]
        simp [List.takeWhile_cons]
      have h2 : l.dropWhile (fun b => b == 32 || b == 9) = 13 :: 10 :: t := by
        rw [hassoc, dropWhile_append_all ws _ hwsp]
        simp [List.dropWhile_cons]
      simp only [wsEol, h1, h2]
      simp only [List.length_cons, List.length_nil] at hk
      rw [hk]
    · have h1 : l.takeWhile (fun b => b == 32 || b == 9) = ws := by
        rw [hassoc, takeWhile_append_all ws _ hwsp]
        simp [List.takeWhile_cons]
      have h2 : l.dropWhile (fun b => b == 32 || b == 9) = 10 :: t := by
        rw [hassoc, dropWhile_append_all ws _ hwsp]
        simp [List.dropWhile_cons]
      simp only [wsEol, h1, h2]
      simp only [List.length_cons, List.length_nil] at hk
      rw [hk]

lemma prefix_decompose {l₁ l₂ : List Nat} (h : l₁ <+: l₂) :
    l₂ = l₁ ++ l₂.drop l₁.length :=
  (List.prefix_iff_eq_append.mp h).symm

lemma head_ne_45_of_ws_eol (ws eol t : List Nat)
    (hws : ∀ b ∈ ws, b = 32 ∨ b = 9) (heol : eol = [13, 10] ∨ eol = [10]) :
    ¬ ([45, 45] <+: ws ++ (eol ++ t)) := by
  intro hp
  obtain ⟨u, hu⟩ := hp
  cases ws with
  | nil =>
    rcases heol with he | he <;> subst he <;> simp at hu
  | cons w ws' =>
    have hw := hws w (List.mem_cons_self w ws')
    simp only [List.cons_append, List.append_assoc] at hu
    injection hu with h1 _
    rcases hw with h' | h' <;> omega

lemma delimMatchAt_eq_some_iff (body tok : List Nat) (p len : Nat) (c : Bool) :
    delimMatchAt body tok p = some (len, c) ↔ SpecDelimLine body tok p len c := by
  have hlen45 : ([45, 45] ++ tok).length = 2 + tok.length := by
    simp [List.length_append]
    omega
  constructor
  · intro h
    simp only [delimMatchAt] at h
    split at h
    · rename_i hpre
      rw [List.isPrefixOf_iff_prefix] at hpre
      have hdec : body.drop p = ([45, 45] ++ tok) ++ ((body.drop p).drop (2 + tok.length)) := by
        have hd := prefix_decompose hpre
        rw [hlen45] at hd
        exact hd
      split at h
      · rename_i hpre2
        rw [List.isPrefixOf_iff_prefix] at hpre2
        have hdec2 : (body.drop p).drop (2 + tok.length) =
            [45, 45] ++ (((body.drop p).drop (2 + tok.length)).drop 2) := by
          have hd := prefix_decompose hpre2
          simpa using hd
        split at h
        · rename_i k hws
          injection h with h'
          rw [Prod.mk.injEq] at h'
          obtain ⟨h1, h2⟩ := h'
          subst h1
          subst h2
          obtain ⟨ws, eol, hwsmem, heol, ⟨t, ht⟩, hk⟩ := (wsEol_eq_some_iff _ _).mp hws
          refine ⟨ws, eol, hwsmem, heol, ⟨t, ?_⟩, ?_⟩
          · rw [hdec, hdec2, ← ht]
            simp [List.append_assoc]
          · rw [if_pos rfl]
            omega
        · cases h
      · rename_i hpre2
        split at h
        · rename_i k hws
          injection h with h'
          rw [Prod.mk.injEq] at h'
          obtain ⟨h1, h2⟩ := h'
          subst h1
          subst h2
          obtain ⟨ws, eol, hwsmem, heol, ⟨t, ht⟩, hk⟩ := (wsEol_eq_some_iff _ _).mp hws
          refine ⟨ws, eol, hwsmem, heol, ⟨t, ?_⟩, ?_⟩
          · rw [hdec, ← ht]
            simp [List.append_assoc]
          · rw [if_neg (by decide : ¬ (false = true))]
            omega
        · cases h
    · cases h
  · rintro ⟨ws, eol, hwsmem, heol, ⟨t, ht⟩, hk⟩
    have hpre : ([45, 45] ++ tok).isPrefixOf (body.drop p) = true := by
      rw [List.isPrefixOf_iff_prefix]
      exact ⟨(if c then [45, 45] else []) ++ (ws ++ (eol ++ t)),
        by rw [← ht]; simp [List.append_assoc]⟩
    have hR : (body.drop p).drop (2 + tok.length) =
        (if c then [45, 45] else []) ++ (ws ++ (eol ++ t)) := by
      rw [← ht]
      have hre : ([45, 45] ++ tok ++ (if c then [45, 45] else []) ++ ws ++ eol) ++ t =
          ([45, 45] ++ tok) ++ ((if c then [45, 45] else []) ++ (ws ++ (eol ++ t))) := by
        simp [List.append_assoc]
      rw [hre, List.drop_left' hlen45]
    have hwsrun : wsEol (ws ++ (eol ++ t)) = some (ws.length + eol.length) :=
      (wsEol_eq_some_iff _ _).mpr
        ⟨ws, eol, hwsmem, heol, ⟨t, by simp [List.append_assoc]⟩, rfl⟩
    cases c with
    | true =>
      have hR2 : ((body.drop p).drop (2 + tok.length)).drop 2 = ws ++ (eol ++ t) := by
        rw [hR]
        rfl
      have hpre2 : [45, 45].isPrefixOf ((body.drop p).drop (2 + tok.length)) = true := by
        rw [List.isPrefixOf_iff_prefix, hR]
        rw [if_pos rfl]
        exact List.prefix_append _ _
      have harith : 2 + tok.length + 2 + (ws.length + eol.length) = len := by
        rw [if_pos rfl] at hk
        omega
      simp only [delimMatchAt]
      rw [if_pos hpre, if_pos hpre2, hR2, hwsrun]
      show some (2 + tok.length + 2 + (ws.length + eol.length), true) = some (len, true)
      rw [harith]
    | false =>
      have hR' : (body.drop p).drop (2 + tok.length) = ws ++ (eol ++ t) := by
        rw [hR]
        rfl
      have hpre2 : ¬ ([45, 45].isPrefixOf ((body.drop p).drop (2 + tok.length)) = true) := by
        rw [List.isPrefixOf_iff_prefix, hR']
        exact head_ne_45_of_ws_eol ws eol t hwsmem heol
      have harith : 2 + tok.length + (ws.length + eol.length) = len := by
        rw [if_neg (by decide : ¬ (false = true))] at hk
        omega
      simp only [delimMatchAt]
      rw [if_pos hpre, if_neg hpre2, hR', hwsrun]
      show some (2 + tok.length + (ws.length + eol.length), false) = some (len, false)
      rw [harith]

lemma delimMatchAt_bounds (body tok : List Nat) (p len : Nat) (c : Bool)
    (h : delimMatchAt body tok p = some (len, c)) : 1 ≤ len ∧ p + len ≤ body.length := by
  obtain ⟨ws, eol, hws, heol, hpre, hk⟩ := (delimMatchAt_eq_some_iff body tok p len c).mp h
  have hlp := List.IsPrefix.length_le hpre
  rw [List.length_drop] at hlp
  have hlen_eq : ([45, 45] ++ tok ++ (if c then [45, 45] else []) ++ ws ++ eol).length =
      2 + tok.length + (if c then 2 else 0) + ws.length + eol.length := by
    cases c <;> simp [List.length_append] <;> omega
  rw [hlen_eq, ← hk] at hlp
  have heol1 : 1 ≤ eol.length := by
    rcases heol with he | he <;> subst he <;> simp
  have hlen1 : 1 ≤ len := by
    cases c with
    | true => rw [if_pos rfl] at hk; omega
    | false => rw [if_neg (by decide : ¬ (false = true))] at hk; omega
  exact ⟨hlen1, by omega⟩

lemma prefix_getElem? {l₁ l₂ : List Nat} (h : l₁ <+: l₂) (m : Nat) (hm : m < l₁.length) :
    l₂[m]? = l₁[m]? := by
  obtain ⟨t, rfl⟩ := h
  rw [List.getElem?_append, if_pos hm]

lemma pattern_dropLast_no_lf (tok ws eol : List Nat) (c : Bool) (htok : 10 ∉ tok)
    (hws : ∀ b ∈ ws, b = 32 ∨ b = 9) (heol : eol = [13, 10] ∨ eol = [10]) :
    10 ∉ ([45, 45] ++ tok ++ (if c then [45, 45] else []) ++ ws ++ eol).dropLast := by
  intro hmem
  have hre : [45, 45] ++ tok ++ (if c then [45, 45] else []) ++ ws ++ eol =
      ([45, 45] ++ tok ++ (if c then [45, 45] else []) ++ ws) ++ eol := by
    simp [List.append_assoc]
  rw [hre, List.dropLast_append] at hmem
  rcases heol with he | he <;> subst he <;> cases c <;> simp at hmem <;>
    rcases hmem with hmem | hmem
  · exact htok hmem
  · rcases hws 10 hmem with h' | h' <;> omega
  · exact htok hmem
  · rcases hws 10 hmem with h' | h' <;> omega
  · exact htok hmem
  · rcases hws 10 hmem with h' | h' <;> omega
  · exact htok hmem
  · rcases hws 10 hmem with h' | h' <;> omega

lemma delimMatchAt_interior (body tok : List Nat) (htok : 10 ∉ tok) (p len : Nat) (c : Bool)
    (h : delimMatchAt body tok p = some (len, c)) :
    ∀ j, p < j → j < p + len → isLineStart body j = false := by
  obtain ⟨ws, eol, hws, heol, hpre, hk⟩ := (delimMatchAt_eq_some_iff body tok p len c).mp h
  intro j hj1 hj2
  have hlenL : ([45, 45] ++ tok ++ (if c then [45, 45] else []) ++ ws ++ eol).length = len := by
    rw [hk]
    cases c <;> simp [List.length_append] <;> omega
  have hb : body[j - 1]? = ([45, 45] ++ tok ++ (if c then [45, 45] else []) ++ ws ++ eol)[j - 1 - p]? := by
    have h1 : body[j - 1]? = (body.drop p)[j - 1 - p]? := by
      rw [List.getElem?_drop]
      congr 1
      omega
    rw [h1]
    exact prefix_getElem? hpre (j - 1 - p) (by omega)
  have hno : body[j - 1]? ≠ some 10 := by
    rw [hb]
    intro hsome
    apply pattern_dropLast_no_lf tok ws eol c htok hws heol
    rw [List.dropLast_eq_take]
    have htake : (([45, 45] ++ tok ++ (if c then [45, 45] else []) ++ ws ++ eol).take
        (([45, 45] ++ tok ++ (if c then [45, 45] else []) ++ ws ++ eol).length - 1))[j - 1 - p]? =
        some 10 := by
      rw [List.getElem?_take, if_pos (by omega)]
      exact hsome
    exact List.getElem?_mem htake
  rw [isLineStart]
  have h0 : (j == 0) = false := by simp; omega
  have h10 : (body[j - 1]? == some 10) = false := by
    simp only [beq_eq_false_iff_ne, ne_eq]
    exact hno
  rw [h0, h10]
  rfl

lemma scanAux_start_le (body tok : List Nat) :
    ∀ (fuel i q e : Nat) (c : Bool), (q, e, c) ∈ scanAux body tok fuel i → i ≤ q := by
  intro fuel
  induction fuel with
  | zero =>
    intro i q e c h
    simp [scanAux] at h
  | succ fuel ih =>
    intro i q e c h
    rw [scanAux] at h
    split at h
    · simp at h
    · split at h
      · split at h
        · rename_i len c' _heq
          rcases List.mem_cons.mp h with hh | hh
          · rw [Prod.mk.injEq] at hh
            omega
          · have := ih (i + len) q e c hh
            omega
        · have := ih (i + 1) q e c h
          omega
      · have := ih (i + 1) q e c h
        omega

lemma scanAux_sorted (body tok : List Nat) :
    ∀ (fuel i : Nat), List.Sorted (fun a b : Nat × Nat × Bool => a.1 < b.1) (scanAux body tok fuel i) := by
  intro fuel
  induction fuel with
  | zero =>
    intro i
    simp [scanAux]
  | succ fuel ih =>
    intro i
    rw [scanAux]
    split
    · exact List.sorted_nil
    · split
      · split
        · rename_i len c heqm
          rw [List.sorted_cons]
          refine ⟨?_, ih (i + len)⟩
          rintro ⟨q, e, c'⟩ hb
          have hle := scanAux_start_le body tok fuel (i + len) q e c' hb
          have hlen := (delimMatchAt_bounds body tok i len c heqm).1
          show i < q
          omega
        · exact ih (i + 1)
      · exact ih (i + 1)

lemma scanAux_mem_iff (body tok : List Nat) (htok : 10 ∉ tok) :
    ∀ (fuel i : Nat), body.length + 1 ≤ fuel + i →
      ∀ (q e : Nat) (c : Bool),
        ((q, e, c) ∈ scanAux body tok fuel i ↔
          i ≤ q ∧ isLineStart body q = true ∧
          ∃ len, delimMatchAt body tok q = some (len, c) ∧ e = q + len) := by
  intro fuel
  induction fuel with
  | zero =>
    intro i hfuel q e c
    constructor
    · intro h
      simp [scanAux] at h
    · rintro ⟨hq, _hls, len, hm, _he⟩
      have hb := delimMatchAt_bounds body tok q len c hm
      omega
  | succ fuel ih =>
    intro i hfuel q e c
    rw [scanAux]
    split
    · rename_i hgt
      simp only [List.not_mem_nil, false_iff]
      rintro ⟨hq, _hls, len, hm, _he⟩
      have hb := delimMatchAt_bounds body tok q len c hm
      omega
    · rename_i hle
      split
      · rename_i hlsi
        split
        · rename_i len0 c0 heqm
          have hb0 := delimMatchAt_bounds body tok i len0 c0 heqm
          rw [List.mem_cons]
          constructor
          · rintro (hh | hh)
            · rw [Prod.mk.injEq] at hh
              obtain ⟨h1, hh2⟩ := hh
              rw [Prod.mk.injEq] at hh2
              obtain ⟨h2, h3⟩ := hh2
              subst h1
              subst h2
              subst h3
              exact ⟨Nat.le_refl _, hlsi, len0, heqm, rfl⟩
            · obtain ⟨hq, hls, len, hm, he⟩ :=
                (ih (i + len0) (by omega) q e c).mp hh
              exact ⟨by omega, hls, len, hm, he⟩
          · rintro ⟨hq, hls, len, hm, he⟩
            by_cases hqi : q = i
            · subst hqi
              rw [heqm] at hm
              injection hm with hm'
              rw [Prod.mk.injEq] at hm'
              obtain ⟨hm1, hm2⟩ := hm'
              left
              rw [Prod.mk.injEq, Prod.mk.injEq]
              exact ⟨rfl, by omega, hm2.symm⟩
            · right
              have hge : i + len0 ≤ q := by
                by_contra hlt
                push_neg at hlt
                have hint := delimMatchAt_interior body tok htok i len0 c0 heqm q
                  (by omega) (by omega)
                rw [hls] at hint
                cases hint
              exact (ih (i + len0) (by omega) q e c).mpr ⟨hge, hls, len, hm, he⟩
        · rename_i heqm
          rw [ih (i + 1) (by omega) q e c]
          constructor
          · rintro ⟨hq, hls, len, hm, he⟩
            exact ⟨by omega, hls, len, hm, he⟩
          · rintro ⟨hq, hls, len, hm, he⟩
            refine ⟨?_, hls, len, hm, he⟩
            rcases Nat.eq_or_lt_of_le hq with heq | hlt
            · subst heq
              rw [heqm] at hm
              cases hm
            · omega
      · rename_i hlsi
        rw [ih (i + 1) (by omega) q e c]
        constructor
        · rintro ⟨hq, hls, len, hm, he⟩
          exact ⟨by omega, hls, len, hm, he⟩
        · rintro ⟨hq, hls, len, hm, he⟩
          refine ⟨?_, hls, len, hm, he⟩
          rcases Nat.eq_or_lt_of_le hq with heq | hlt
          · subst heq
            rw [hls] at hlsi
            cases hlsi rfl
          · omega

lemma iter_mem_iff (body tok : List Nat) (htok : 10 ∉ tok) (q e : Nat) (c : Bool) :
    (q, e, c) ∈ iter_signed_boundaries body tok ↔
      isLineStart body q = true ∧
      ∃ len, delimMatchAt body tok q = some (len, c) ∧ e = q + len := by
  rw [iter_signed_boundaries,
    scanAux_mem_iff body tok htok (body.length + 1) 0 (by omega) q e c]
  simp

lemma iter_sorted (body tok : List Nat) :
    List.Sorted (fun a b : Nat × Nat × Bool => a.1 < b.1) (iter_signed_boundaries body tok) :=
  scanAux_sorted body tok (body.length + 1) 0

/-- C3: for a boundary token free of `\n` (the token invariant of the data
model), the scanner yields a mark `(q, e, c)` exactly when offset `q` starts
a line consisting of `--`, the token, a second `--` exactly when `c` is set,
zero or more spaces/tabs, and `\r\n` or bare `\n` ending at offset `e`; and
the marks come out in strictly increasing document order.  In particular a
token occurrence without the line-start `--` anchor, or without a valid line
terminator after the optional trailing whitespace, is never a mark. -/
theorem claim_C3_scanner_match_definition (body tok : List Nat) (htok : 10 ∉ tok) :
    (∀ q e c, (q, e, c) ∈ iter_signed_boundaries body tok ↔
      (isLineStart body q = true ∧ ∃ len, SpecDelimLine body tok q len c ∧ e = q + len)) ∧
    List.Sorted (fun a b : Nat × Nat × Bool => a.1 < b.1) (iter_signed_boundaries body tok) := by
  refine ⟨?_, iter_sorted body tok⟩
  intro q e c
  rw [iter_mem_iff body tok htok q e c]
  constructor
  · rintro ⟨hls, len, hm, he⟩
    exact ⟨hls, len, (delimMatchAt_eq_some_iff body tok q len c).mp hm, he⟩
  · rintro ⟨hls, len, hm, he⟩
    exact ⟨hls, len, (delimMatchAt_eq_some_iff body tok q len c).mpr hm, he⟩

/-- C3 witness: the characterization applied to the one-delimiter body
`--X\r\n` with token `X`. -/
theorem claim_C3_witness :
    (10 ∉ ([88] : List Nat)) ∧
    ((∀ q e c, (q, e, c) ∈ iter_signed_boundaries (sB "--X\r\n") [88] ↔
      (isLineStart (sB "--X\r\n") q = true ∧
        ∃ len, SpecDelimLine (sB "--X\r\n") [88] q len c ∧ e = q + len)) ∧
     List.Sorted (fun a b : Nat × Nat × Bool => a.1 < b.1)
       (iter_signed_boundaries (sB "--X\r\n") [88])) :=
  ⟨by decide, claim_C3_scanner_match_definition (sB "--X\r\n") [88] (by decide)⟩

/-! ## Lemmas for part slicing -/

lemma findIdx?_some_get {α : Type} (p : α → Bool) :
    ∀ (l : List α) (s i : Nat), List.findIdx? p l s = some i →
      s ≤ i ∧ ∃ a, l[i - s]? = some a ∧ p a = true := by
  intro l
  induction l with
  | nil =>
    intro s i h
    rw [List.findIdx?_nil] at h
    cases h
  | cons a l ih =>
    intro s i h
    rw [List.findIdx?_cons] at h
    split at h
    · rename_i hp
      injection h with h0
      subst h0
      exact ⟨Nat.le_refl s, a, by simp, hp⟩
    · obtain ⟨hs, b, hb, hpb⟩ := ih (s + 1) i h
      refine ⟨by omega, b, ?_, hpb⟩
      have hsub : i - s = (i - (s + 1)) + 1 := by omega
      rw [hsub]
      simpa using hb

lemma trimLeading_cases (q : List Nat) :
    (trimLeadingEmptyLine q = q ∧ ¬ ([13, 10] <+: q) ∧ ¬ ([10] <+: q)) ∨
    q = [13, 10] ++ trimLeadingEmptyLine q ∨ q = [10] ++ trimLeadingEmptyLine q := by
  unfold trimLeadingEmptyLine
  split
  · rename_i hp
    rw [List.isPrefixOf_iff_prefix] at hp
    right; left
    obtain ⟨t, ht⟩ := hp
    rw [← ht]
    simp
  · rename_i h1
    rw [List.isPrefixOf_iff_prefix] at h1
    split
    · rename_i hp
      rw [List.isPrefixOf_iff_prefix] at hp
      right; right
      obtain ⟨t, ht⟩ := hp
      rw [← ht]
      simp
    · rename_i h2
      rw [List.isPrefixOf_iff_prefix] at h2
      exact Or.inl ⟨rfl, h1, h2⟩

/-- C4: with at least two marks, a first closing mark at index at least 2,
the splitter returns exactly the bytes strictly between the end of mark #0
and the start of mark #1, and between the end of mark #1 and the start of
the first closing mark, each range modified only by the bounded leading
trim, which removes at most one leading line terminator and touches no other
position. -/
theorem claim_C4_part_slicing (body tok : List Nat) (s0 e0 s1 e1 : Nat) (c0 c1 : Bool)
    (rest : List (Nat × Nat × Bool)) (ci : Nat)
    (h : iter_signed_boundaries body tok = (s0, e0, c0) :: (s1, e1, c1) :: rest)
    (hf : (iter_signed_boundaries body tok).findIdx? (fun m => m.2.2) = some ci)
    (hci : 2 ≤ ci) :
    ∃ sc ec, (iter_signed_boundaries body tok)[ci]? = some (sc, ec, true) ∧
      split_multipart_signed_parts body tok =
        some (trimLeadingEmptyLine (pySlice body e0 s1),
              trimLeadingEmptyLine (pySlice body e1 sc)) ∧
      ∀ q : List Nat,
        (trimLeadingEmptyLine q = q ∧ ¬ ([13, 10] <+: q) ∧ ¬ ([10] <+: q)) ∨
        q = [13, 10] ++ trimLeadingEmptyLine q ∨ q = [10] ++ trimLeadingEmptyLine q := by
  obtain ⟨hs0, mc, hmc, hpc⟩ :=
    findIdx?_some_get (fun m => m.2.2) (iter_signed_boundaries body tok) 0 ci hf
  obtain ⟨sc, ec, cc⟩ := mc
  have hcc : cc = true := by simpa using hpc
  subst hcc
  simp only [Nat.sub_zero] at hmc
  refine ⟨sc, ec, hmc, ?_, fun q => trimLeading_cases q⟩
  simp only [split_multipart_signed_parts]
  rw [h] at hf hmc
  rw [h, hf]
  rw [if_neg (by simp only [List.length_cons]; omega)]
  simp only [List.getElem?_cons_zero, List.getElem?_cons_succ]
  rw [if_neg (by omega : ¬ ci < 2), hmc]

/-- C4 witness: the slicing equation on a concrete three-mark body. -/
theorem claim_C4_witness :
    ∃ sc ec,
      (iter_signed_boundaries (sB "--B\r\nx\n--B\r\ny\n--B--\r\n") [66])[2]? = some (sc, ec, true) ∧
      split_multipart_signed_parts (sB "--B\r\nx\n--B\r\ny\n--B--\r\n") [66] =
        some (trimLeadingEmptyLine (pySlice (sB "--B\r\nx\n--B\r\ny\n--B--\r\n") 5 7),
              trimLeadingEmptyLine (pySlice (sB "--B\r\nx\n--B\r\ny\n--B--\r\n") 12 sc)) ∧
      ∀ q : List Nat,
        (trimLeadingEmptyLine q = q ∧ ¬ ([13, 10] <+: q) ∧ ¬ ([10] <+: q)) ∨
        q = [13, 10] ++ trimLeadingEmptyLine q ∨ q = [10] ++ trimLeadingEmptyLine q :=
  claim_C4_part_slicing (sB "--B\r\nx\n--B\r\ny\n--B--\r\n") [66] 0 5 7 12 false false
    [(14, 21, true)] 2 (by decide) (by decide) (by decide)

/-- C8: when the body yields at least two marks and none of them is closing,
the splitter fails, and the whole pipeline produces no output at all. -/
theorem claim_C8_no_closing_no_output (raw top_headers body eol tok : List Nat)
    (hsplit : find_header_block raw = some (top_headers, body, eol))
    (htok : get_top_level_boundary top_headers = some tok)
    (_hlen : 2 ≤ (iter_signed_boundaries body tok).length)
    (hnc : ∀ m ∈ iter_signed_boundaries body tok, m.2.2 = false) :
    split_multipart_signed_parts body tok = none ∧ main_outputs raw = none := by
  have hfi : (iter_signed_boundaries body tok).findIdx? (fun m => m.2.2) = none := by
    rw [List.findIdx?_eq_none_iff]
    exact hnc
  have hsp : split_multipart_signed_parts body tok = none := by
    simp only [split_multipart_signed_parts]
    rw [hfi]
    split <;> rfl
  refine ⟨hsp, ?_⟩
  simp [main_outputs, hsplit, htok, hsp]

/-- C8 witness: a message whose body holds two non-closing delimiters. -/
theorem claim_C8_witness :
    split_multipart_signed_parts (sB "--X\r\n--X\r\n") [88] = none ∧
    main_outputs (sB "Content-Type: multipart/signed; boundary=X\r\n\r\n--X\r\n--X\r\n") = none :=
  claim_C8_no_closing_no_output
    (sB "Content-Type: multipart/signed; boundary=X\r\n\r\n--X\r\n--X\r\n")
    (sB "Content-Type: multipart/signed; boundary=X") (sB "--X\r\n--X\r\n") [13, 10] [88]
    (by decide) (by decide) (by decide) (by decide)

/-- C9 witness: a part with no blank line passes through unchanged with
empty headers. -/
theorem claim_C9_witness :
    ((∀ i, ¬ ([13, 10, 13, 10] <+: ([104, 105] : List Nat).drop i)) ∧
      (∀ i, ¬ ([10, 10] <+: ([104, 105] : List Nat).drop i))) ∧
    strip_headers [104, 105] = ([], [104, 105]) :=
  (claim_C9_strip_headers [104, 105]).2.2 (by decide) (by decide)

/-! ## The round-trip property -/

lemma isLineStart_append (L rest : List Nat) (h10 : L.getLast? = some 10) :
    isLineStart (L ++ rest) L.length = true := by
  have hL : L ≠ [] := by
    intro h
    rw [h] at h10
    cases h10
  rw [isLineStart]
  have hlt : L.length - 1 < L.length := by
    cases L with
    | nil => exact absurd rfl hL
    | cons a l => simp
  have h1 : (L ++ rest)[L.length - 1]? = L[L.length - 1]? := by
    rw [List.getElem?_append, if_pos hlt]
  rw [h1, ← List.getLast?_eq_getElem?, h10]
  simp

lemma trimLeading_eq_self (q : List Nat) (h1 : ¬ ([13, 10] <+: q)) (h2 : ¬ ([10] <+: q)) :
    trimLeadingEmptyLine q = q := by
  unfold trimLeadingEmptyLine
  rw [if_neg (fun hc => h1 (List.isPrefixOf_iff_prefix.mp hc)),
    if_neg (fun hc => h2 (List.isPrefixOf_iff_prefix.mp hc))]

/-- C2 counterexample: with token `T` and parts `P1 = x`, `P2 = y` (which do
not end in a newline), the constructed body `--T\r\nx--T\r\ny--T--\r\n`
yields only one delimiter mark — the second and third candidate lines are
not at line starts — so the scanner does not find 3 marks and the slicer
fails instead of recovering P1 and P2.  The claim is false for arbitrary
part bytes. -/
theorem claim_C2_counterexample :
    msBody [84] [120] [121] =
      [45, 45, 84, 13, 10, 120, 45, 45, 84, 13, 10, 121, 45, 45, 84, 45, 45, 13, 10] ∧
    (iter_signed_boundaries (msBody [84] [120] [121]) [84]).length = 1 ∧
    split_multipart_signed_parts (msBody [84] [120] [121]) [84] = none := by decide

/-- C2 (amended): round-trip delimiter detection.  For a token free of `\n`
and parts P1, P2 that each are empty or end in `\n` (so the following
delimiter line actually starts a line), do not begin with a line terminator
(so the leading-blank-line trim is a no-op), and contribute no delimiter
marks of their own, the scanner on `--T\r\n<P1>--T\r\n<P2>--T--\r\n` finds
exactly the 3 constructed marks in order, and the slicer returns P1 and P2
byte-for-byte. -/
theorem claim_C2_round_trip (T P1 P2 : List Nat)
    (htok : 10 ∉ T)
    (hP1end : P1 = [] ∨ P1.getLast? = some 10)
    (hP2end : P2 = [] ∨ P2.getLast? = some 10)
    (hP1a : ¬ ([13, 10] <+: P1)) (hP1b : ¬ ([10] <+: P1))
    (hP2a : ¬ ([13, 10] <+: P2)) (hP2b : ¬ ([10] <+: P2))
    (honly : ∀ m ∈ iter_signed_boundaries (msBody T P1 P2) T,
      m.1 = 0 ∨ m.1 = T.length + 4 + P1.length ∨
      m.1 = T.length + 4 + P1.length + (T.length + 4) + P2.length) :
    iter_signed_boundaries (msBody T P1 P2) T =
      [(0, T.length + 4, false),
       (T.length + 4 + P1.length, T.length + 4 + P1.length + (T.length + 4), false),
       (T.length + 4 + P1.length + (T.length + 4) + P2.length,
        T.length + 4 + P1.length + (T.length + 4) + P2.length + (T.length + 6), true)] ∧
    split_multipart_signed_parts (msBody T P1 P2) T = some (P1, P2) := by
  have hDlen : ([45, 45] ++ T ++ [13, 10]).length = T.length + 4 := by
    simp only [List.length_append, List.length_cons, List.length_nil]
    omega
  -- decompositions of the constructed body
  have hsp1 : msBody T P1 P2 = ([45, 45] ++ T ++ [13, 10]) ++
      (P1 ++ (([45, 45] ++ T ++ [13, 10]) ++ (P2 ++ ([45, 45] ++ T ++ [45, 45, 13, 10])))) := by
    simp [msBody, List.append_assoc]
  have hsp2 : msBody T P1 P2 = (([45, 45] ++ T ++ [13, 10]) ++ P1) ++
      (([45, 45] ++ T ++ [13, 10]) ++ (P2 ++ ([45, 45] ++ T ++ [45, 45, 13, 10]))) := by
    simp [msBody, List.append_assoc]
  have hsp3 : msBody T P1 P2 = (([45, 45] ++ T ++ [13, 10]) ++ P1 ++ ([45, 45] ++ T ++ [13, 10])) ++
      (P2 ++ ([45, 45] ++ T ++ [45, 45, 13, 10])) := by
    simp [msBody, List.append_assoc]
  have hsp4 : msBody T P1 P2 = (([45, 45] ++ T ++ [13, 10]) ++ P1 ++ ([45, 45] ++ T ++ [13, 10]) ++ P2) ++
      ([45, 45] ++ T ++ [45, 45, 13, 10]) := by
    simp [msBody, List.append_assoc]
  have hL2len : ((([45, 45] ++ T ++ [13, 10]) ++ P1)).length = T.length + 4 + P1.length := by
    simp only [List.length_append, List.length_cons, List.length_nil]
    omega
  have hL3len : (([45, 45] ++ T ++ [13, 10]) ++ P1 ++ ([45, 45] ++ T ++ [13, 10])).length =
      T.length + 4 + P1.length + (T.length + 4) := by
    simp only [List.length_append, List.length_cons, List.length_nil]
    omega
  have hL4len : (([45, 45] ++ T ++ [13, 10]) ++ P1 ++ ([45, 45] ++ T ++ [13, 10]) ++ P2).length =
      T.length + 4 + P1.length + (T.length + 4) + P2.length := by
    simp only [List.length_append, List.length_cons, List.length_nil]
    omega
  -- the three delimiter matches
  have hm0 : delimMatchAt (msBody T P1 P2) T 0 = some (T.length + 4, false) := by
    rw [delimMatchAt_eq_some_iff]
    refine ⟨[], [13, 10], by simp, Or.inl rfl, ⟨P1 ++ (([45, 45] ++ T ++ [13, 10]) ++
      (P2 ++ ([45, 45] ++ T ++ [45, 45, 13, 10]))), ?_⟩, ?_⟩
    · rw [List.drop_zero, hsp1]
      simp [List.append_assoc]
    · rw [if_neg (by decide : ¬ (false = true))]
      simp only [List.length_cons, List.length_nil]
      omega
  have hd1 : (msBody T P1 P2).drop (T.length + 4 + P1.length) =
      ([45, 45] ++ T ++ [13, 10]) ++ (P2 ++ ([45, 45] ++ T ++ [45, 45, 13, 10])) := by
    rw [hsp2, List.drop_left' hL2len]
  have hm1 : delimMatchAt (msBody T P1 P2) T (T.length + 4 + P1.length) =
      some (T.length + 4, false) := by
    rw [delimMatchAt_eq_some_iff]
    refine ⟨[], [13, 10], by simp, Or.inl rfl,
      ⟨P2 ++ ([45, 45] ++ T ++ [45, 45, 13, 10]), ?_⟩, ?_⟩
    · rw [hd1]
      simp [List.append_assoc]
    · rw [if_neg (by decide : ¬ (false = true))]
      simp only [List.length_cons, List.length_nil]
      omega
  have hd2 : (msBody T P1 P2).drop (T.length + 4 + P1.length + (T.length + 4) + P2.length) =
      [45, 45] ++ T ++ [45, 45, 13, 10] := by
    rw [hsp4, List.drop_left' hL4len]
  have hm2 : delimMatchAt (msBody T P1 P2) T
      (T.length + 4 + P1.length + (T.length + 4) + P2.length) =
      some (T.length + 6, true) := by
    rw [delimMatchAt_eq_some_iff]
    refine ⟨[], [13, 10], by simp, Or.inl rfl, ⟨[], ?_⟩, ?_⟩
    · rw [hd2]
      simp [List.append_assoc]
    · rw [if_pos rfl]
      simp only [List.length_cons, List.length_nil]
      omega
  -- the three line starts
  have hls0 : isLineStart (msBody T P1 P2) 0 = true := rfl
  have hlastD : ∀ P : List Nat, P = [] ∨ P.getLast? = some 10 →
      ∀ L : List Nat, ((L ++ T ++ [13, 10]) ++ P).getLast? = some 10 := by
    intro P hP L
    rw [List.getLast?_append]
    rcases hP with he | he
    · subst he
      simp only [List.getLast?_nil, Option.none_or]
      rw [List.getLast?_append]
      rfl
    · rw [he]
      rfl
  have hls1 : isLineStart (msBody T P1 P2) (T.length + 4 + P1.length) = true := by
    rw [hsp2, ← hL2len]
    exact isLineStart_append _ _ (hlastD P1 hP1end [45, 45])
  have hls2 : isLineStart (msBody T P1 P2)
      (T.length + 4 + P1.length + (T.length + 4) + P2.length) = true := by
    rw [hsp4, ← hL4len]
    apply isLineStart_append
    have := hlastD P2 hP2end (([45, 45] ++ T ++ [13, 10]) ++ P1 ++ [45, 45])
    rw [List.getLast?_append]
    rcases hP2end with he | he
    · subst he
      simp only [List.getLast?_nil, Option.none_or]
      rw [List.getLast?_append, List.getLast?_append]
      rfl
    · rw [he]
      rfl
  -- membership of the three marks
  have hmem0 : (0, T.length + 4, false) ∈ iter_signed_boundaries (msBody T P1 P2) T :=
    (iter_mem_iff _ _ htok _ _ _).mpr ⟨hls0, T.length + 4, hm0, by omega⟩
  have hmem1 : (T.length + 4 + P1.length, T.length + 4 + P1.length + (T.length + 4), false) ∈
      iter_signed_boundaries (msBody T P1 P2) T :=
    (iter_mem_iff _ _ htok _ _ _).mpr ⟨hls1, T.length + 4, hm1, rfl⟩
  have hmem2 : (T.length + 4 + P1.length + (T.length + 4) + P2.length,
      T.length + 4 + P1.length + (T.length + 4) + P2.length + (T.length + 6), true) ∈
      iter_signed_boundaries (msBody T P1 P2) T :=
    (iter_mem_iff _ _ htok _ _ _).mpr ⟨hls2, T.length + 6, hm2, rfl⟩
  -- every mark is one of the three
  have huniq : ∀ q e : Nat, ∀ c : Bool, (q, e, c) ∈ iter_signed_boundaries (msBody T P1 P2) T →
      (q, e, c) = (0, T.length + 4, false) ∨
      (q, e, c) = (T.length + 4 + P1.length, T.length + 4 + P1.length + (T.length + 4), false) ∨
      (q, e, c) = (T.length + 4 + P1.length + (T.length + 4) + P2.length,
        T.length + 4 + P1.length + (T.length + 4) + P2.length + (T.length + 6), true) := by
    intro q e c h
    obtain ⟨_hls, len, hm, he⟩ := (iter_mem_iff _ _ htok _ _ _).mp h
    rcases honly (q, e, c) h with h0 | h0 | h0
    · have hq : q = 0 := h0
      subst hq
      rw [hm0] at hm
      injection hm with hm'
      rw [Prod.mk.injEq] at hm'
      left
      rw [Prod.mk.injEq, Prod.mk.injEq]
      exact ⟨rfl, by omega, hm'.2.symm⟩
    · have hq : q = T.length + 4 + P1.length := h0
      subst hq
      rw [hm1] at hm
      injection hm with hm'
      rw [Prod.mk.injEq] at hm'
      right; left
      rw [Prod.mk.injEq, Prod.mk.injEq]
      exact ⟨rfl, by omega, hm'.2.symm⟩
    · have hq : q = T.length + 4 + P1.length + (T.length + 4) + P2.length := h0
      subst hq
      rw [hm2] at hm
      injection hm with hm'
      rw [Prod.mk.injEq] at hm'
      right; right
      rw [Prod.mk.injEq, Prod.mk.injEq]
      exact ⟨rfl, by omega, hm'.2.symm⟩
  -- the scanner output is exactly the three marks
  have hsorted := iter_sorted (msBody T P1 P2) T
  have hnd1 : (iter_signed_boundaries (msBody T P1 P2) T).Nodup :=
    List.Pairwise.imp (fun h heq => by rw [heq] at h; exact lt_irrefl _ h) hsorted
  have hnd2 : ([(0, T.length + 4, false),
      (T.length + 4 + P1.length, T.length + 4 + P1.length + (T.length + 4), false),
      (T.length + 4 + P1.length + (T.length + 4) + P2.length,
        T.length + 4 + P1.length + (T.length + 4) + P2.length + (T.length + 6), true)] :
      List (Nat × Nat × Bool)).Nodup := by
    refine List.Pairwise.cons ?_ (List.Pairwise.cons ?_ (List.pairwise_singleton _ _))
    · intro b hb heq
      rcases List.mem_cons.mp hb with hb' | hb'
      · rw [hb'] at heq
        rw [Prod.mk.injEq] at heq
        exact absurd heq.1 (by omega)
      · rw [List.mem_singleton] at hb'
        rw [hb'] at heq
        rw [Prod.mk.injEq] at heq
        exact absurd heq.1 (by omega)
    · intro b hb heq
      rw [List.mem_singleton] at hb
      rw [hb] at heq
      rw [Prod.mk.injEq] at heq
      exact absurd heq.1 (by omega)
  have hperm : (iter_signed_boundaries (msBody T P1 P2) T).Perm
      [(0, T.length + 4, false),
       (T.length + 4 + P1.length, T.length + 4 + P1.length + (T.length + 4), false),
       (T.length + 4 + P1.length + (T.length + 4) + P2.length,
        T.length + 4 + P1.length + (T.length + 4) + P2.length + (T.length + 6), true)] := by
    rw [List.perm_ext_iff_of_nodup hnd1 hnd2]
    rintro ⟨q, e, c⟩
    constructor
    · intro h
      rcases huniq q e c h with h' | h' | h' <;> simp [h']
    · intro h
      rcases List.mem_cons.mp h with h' | h'
      · rw [h']; exact hmem0
      · rcases List.mem_cons.mp h' with h'' | h''
        · rw [h'']; exact hmem1
        · rw [List.mem_singleton] at h''
          rw [h'']; exact hmem2
  have hsorted2 : List.Sorted (fun a b : Nat × Nat × Bool => a.1 < b.1)
      [(0, T.length + 4, false),
       (T.length + 4 + P1.length, T.length + 4 + P1.length + (T.length + 4), false),
       (T.length + 4 + P1.length + (T.length + 4) + P2.length,
        T.length + 4 + P1.length + (T.length + 4) + P2.length + (T.length + 6), true)] := by
    rw [List.sorted_cons, List.sorted_cons]
    refine ⟨?_, ?_, List.sorted_singleton _⟩
    · intro b hb
      rcases List.mem_cons.mp hb with hb' | hb'
      · rw [hb']
        show (0 : Nat) < T.length + 4 + P1.length
        omega
      · rw [List.mem_singleton] at hb'
        rw [hb']
        show (0 : Nat) < T.length + 4 + P1.length + (T.length + 4) + P2.length
        omega
    · intro b hb
      rw [List.mem_singleton] at hb
      rw [hb]
      show T.length + 4 + P1.length < T.length + 4 + P1.length + (T.length + 4) + P2.length
      omega
  haveI : IsAntisymm (Nat × Nat × Bool) (fun a b => a.1 < b.1) :=
    ⟨fun a b h1 h2 => absurd (lt_trans h1 h2) (lt_irrefl _)⟩
  have hiter := List.eq_of_perm_of_sorted hperm hsorted hsorted2
  refine ⟨hiter, ?_⟩
  -- the slicer returns exactly P1 and P2
  have hslice1 : pySlice (msBody T P1 P2) (T.length + 4) (T.length + 4 + P1.length) = P1 := by
    rw [pySlice]
    have hdrop : (msBody T P1 P2).drop (T.length + 4) = P1 ++ (([45, 45] ++ T ++ [13, 10]) ++
        (P2 ++ ([45, 45] ++ T ++ [45, 45, 13, 10]))) := by
      rw [hsp1, List.drop_left' hDlen]
    rw [hdrop]
    have hsub : T.length + 4 + P1.length - (T.length + 4) = P1.length := by omega
    rw [hsub, List.take_left' rfl]
  have hslice2 : pySlice (msBody T P1 P2) (T.length + 4 + P1.length + (T.length + 4))
      (T.length + 4 + P1.length + (T.length + 4) + P2.length) = P2 := by
    rw [pySlice]
    have hdrop : (msBody T P1 P2).drop (T.length + 4 + P1.length + (T.length + 4)) =
        P2 ++ ([45, 45] ++ T ++ [45, 45, 13, 10]) := by
      rw [hsp3, List.drop_left' hL3len]
    rw [hdrop]
    have hsub : T.length + 4 + P1.length + (T.length + 4) + P2.length -
        (T.length + 4 + P1.length + (T.length + 4)) = P2.length := by omega
    rw [hsub, List.take_left' rfl]
  simp only [split_multipart_signed_parts, hiter]
  show some (trimLeadingEmptyLine (pySlice (msBody T P1 P2) (T.length + 4)
      (T.length + 4 + P1.length)),
    trimLeadingEmptyLine (pySlice (msBody T P1 P2) (T.length + 4 + P1.length + (T.length + 4))
      (T.length + 4 + P1.length + (T.length + 4) + P2.length))) = some (P1, P2)
  rw [hslice1, hslice2, trimLeading_eq_self P1 hP1a hP1b, trimLeading_eq_self P2 hP2a hP2b]

/-- C2 witness: the round-trip equation on token `X` with parts `a\r\n` and
`b\r\n`. -/
theorem claim_C2_witness :
    iter_signed_boundaries (msBody [88] [97, 13, 10] [98, 13, 10]) [88] =
      [(0, 5, false), (8, 13, false), (16, 23, true)] ∧
    split_multipart_signed_parts (msBody [88] [97, 13, 10] [98, 13, 10]) [88] =
      some ([97, 13, 10], [98, 13, 10]) :=
  claim_C2_round_trip [88] [97, 13, 10] [98, 13, 10] (by decide) (by decide) (by decide)
    (by decide) (by decide) (by decide) (by decide) (by decide)
